import Mathlib

/-!
Shallow embedding of the `cache_to_disk` disk-backed memoization layer
(`cache_to_disk/__init__.py`) and verification of its specification.

The metadata store (the JSON file `cache_to_disk_caches.json`) is modelled as a
counter plus an association list from function names to entry lists, mirroring a
Python dict whose reserved counter key is kept structurally separate.  The
artifact directory is modelled as an association list from file names to the
stored value together with the file's age in days (`get_age_of_file` output at
the moment an operation runs).  The pickle codec is modelled as the identity on
an abstract value type.  Every operation is explicit state passing: it receives
the on-disk state and returns the new on-disk state.
-/

set_option autoImplicit false

namespace CacheToDisk

/-- The reserved counter key `_TOTAL_NUMCACHE_KEY` from the source. -/
def TOTAL_NUMCACHE_KEY : String := "total_number_of_cache_to_disks"

/-- `UNLIMITED_CACHE_AGE = 0`: sentinel for unlimited retention. -/
def UNLIMITED_CACHE_AGE : Int := 0

/-- One persisted cache record, as stored in the metadata JSON:
`{'args': ..., 'kwargs': ..., 'file_name': ..., 'max_age_days': ...}`. -/
structure CacheEntry where
  args : String
  kwargs : String
  file_name : String
  max_age_days : Int
  deriving DecidableEq, Repr

/-- The metadata store: the `_TOTAL_NUMCACHE_KEY` counter plus the mapping from
function name to its list of cache entries (a Python dict, modelled as an
association list preserving insertion order). -/
structure Store where
  counter : Nat
  funcs : List (String × List CacheEntry)
  deriving DecidableEq, Repr

/-- The store freshly initialized by `load_cache_metadata_json`:
`{_TOTAL_NUMCACHE_KEY: 0}`. -/
def emptyStore : Store := ⟨0, []⟩

/-- First-match association-list lookup (Python `dict[k]` / `dict.get`). -/
def lookupA {β : Type} : List (String × β) → String → Option β
  | [], _ => none
  | (k', v') :: rest, k => if k' = k then some v' else lookupA rest k

/-- Association-list update (Python `dict[k] = v`): replaces the value at the
first occurrence of the key in place, or appends the pair at the end. -/
def updateA {β : Type} : List (String × β) → String → β → List (String × β)
  | [], k, v => [(k, v)]
  | (k', v') :: rest, k, v =>
    if k' = k then (k, v) :: rest else (k', v') :: updateA rest k v

/-- Association-list removal (Python `dict.pop(k)`). -/
def removeA {β : Type} : List (String × β) → String → List (String × β)
  | [], _ => []
  | (k', v') :: rest, k =>
    if k' = k then removeA rest k else (k', v') :: removeA rest k

/-- The artifact directory: file name to (stored value, age of the file in
days as reported by `get_age_of_file` at the time of the operation). -/
abbrev Disk (α : Type) := List (String × α × Int)

variable {α : Type}

/-- `os.path.exists` composed with reading the file: value and age. -/
def diskLookup (d : Disk α) (n : String) : Option (α × Int) := lookupA d n

/-- `os.path.exists`. -/
def diskHas (d : Disk α) (n : String) : Bool := (diskLookup d n).isSome

/-- `os.remove`. -/
def diskRemove (d : Disk α) (n : String) : Disk α := removeA d n

/-- `pickle_big_data`: (over)write a file; its modification time is now, so
its age is `0`. -/
def diskWrite (d : Disk α) (n : String) (v : α) : Disk α := (n, v, 0) :: removeA d n

/-- Let `δ` days elapse: every file on disk ages by `δ`. -/
def ageDisk (δ : Int) (d : Disk α) : Disk α := d.map fun p => (p.1, p.2.1, p.2.2 + δ)

/-- The signature test from `cache_exists`:
`function_cache['args'] == str(args) and function_cache['kwargs'] == str(kwargs)`.
Arguments are modelled by their already-encoded `str(args)` / `str(kwargs)`
strings. -/
def matchesSig (e : CacheEntry) (a k : String) : Bool :=
  e.args = a && e.kwargs = k

/-- The expiry test shared by `cache_exists` and `delete_old_disk_caches`:
the Python chained comparison `age > max_age_days != UNLIMITED_CACHE_AGE`. -/
def isExpired (age maxAgeDays : Int) : Bool :=
  age > maxAgeDays && maxAgeDays ≠ UNLIMITED_CACHE_AGE

/-- Outcome of the entry scan loop inside `cache_exists`: either an early
`return True, value` (with the disk as mutated so far), or the end of the loop
with the accumulated `new_caches_for_function`, the `cache_changed` flag and
the mutated disk. -/
inductive ScanOut (α : Type) where
  | hitFound (v : α) (disk : Disk α)
  | missEnd (kept : List CacheEntry) (changed : Bool) (disk : Disk α)
  deriving Repr

/-- The `for function_cache in cache_metadata[function_name]` loop of
`cache_exists`, with the disk threaded through `os.remove` calls. -/
def scan (a k : String) : Disk α → List CacheEntry → ScanOut α
  | disk, [] => .missEnd [] false disk
  | disk, e :: rest =>
    if matchesSig e a k then
      match diskLookup disk e.file_name with
      | some (v, age) =>
        if isExpired age e.max_age_days then
          match scan a k (diskRemove disk e.file_name) rest with
          | .hitFound v' d' => .hitFound v' d'
          | .missEnd kept _ d' => .missEnd kept true d'
        else
          .hitFound v disk
      | none =>
        match scan a k disk rest with
        | .hitFound v' d' => .hitFound v' d'
        | .missEnd kept _ d' => .missEnd kept true d'
    else
      match scan a k disk rest with
      | .hitFound v' d' => .hitFound v' d'
      | .missEnd kept c d' => .missEnd (e :: kept) c d'

/-- Full result of `cache_exists`: the returned `(already_cached, value)` pair
encoded as `found : Option α`, the in-memory `cache_metadata` dict after the
call, the content of the metadata file after the call, and the disk. -/
structure ExistsResult (α : Type) where
  found : Option α
  meta : Store
  persisted : Store
  disk : Disk α
  deriving Repr

/-- `cache_exists(cache_metadata, function_name, *args, **kwargs)`.
`meta` is the in-memory dict the caller passed, `persisted` the current content
of the metadata file (the wrapper always calls it with `persisted = meta`,
freshly loaded). -/
def cache_exists (disk : Disk α) (meta persisted : Store) (fn a k : String) :
    ExistsResult α :=
  match lookupA meta.funcs fn with
  | none => ⟨none, meta, persisted, disk⟩
  | some caches =>
    match scan a k disk caches with
    | .hitFound v d' => ⟨some v, meta, persisted, d'⟩
    | .missEnd kept changed d' =>
      if changed then
        let meta' : Store :=
          if kept.isEmpty then ⟨meta.counter, removeA meta.funcs fn⟩
          else ⟨meta.counter, updateA meta.funcs fn kept⟩
        ⟨none, meta', meta', d'⟩
      else ⟨none, meta, persisted, d'⟩

/-- Error taxonomy of the spec: `ConfigurationError` for the reserved-key
rejection in `cache_function_value`, `StorageError` for an unparseable
metadata file in `load_cache_metadata_json`. -/
inductive CacheErr where
  | configurationError
  | storageError
  deriving DecidableEq, Repr

/-- `str(int(counter)) + '.pkl'`: the artifact filename derived from a counter
value. -/
def mintName (c : Nat) : String := toString c ++ ".pkl"

/-- `cache_function_value(function_value, n_days_to_cache, cache_metadata,
function_name, *args, **kwargs)`.  On success returns the disk after
`pickle_big_data` and the store that was both kept in memory and written to
the metadata file.  Raises `ConfigurationError` when `function_name` is the
reserved counter key, before any file or store mutation. -/
def cache_function_value (v : α) (nDays : Int) (disk : Disk α) (meta : Store)
    (fn a k : String) : Except CacheErr (Disk α × Store) :=
  if fn = TOTAL_NUMCACHE_KEY then .error .configurationError
  else
    let caches := (lookupA meta.funcs fn).getD []
    let newName := mintName (meta.counter + 1)
    let entry : CacheEntry := ⟨a, k, newName, nDays⟩
    let disk' := diskWrite disk newName v
    let meta' : Store := ⟨meta.counter + 1, updateA meta.funcs fn (caches ++ [entry])⟩
    .ok (disk', meta')

/-- The content of the metadata file as the filesystem presents it to
`load_cache_metadata_json`: absent, present but not valid JSON, or present
and parseable into a store. -/
inductive MetaFile where
  | absent
  | corrupt
  | parseable (s : Store)
  deriving DecidableEq, Repr

/-- `load_cache_metadata_json()`: return the parsed store; on
`FileNotFoundError` write and return `{_TOTAL_NUMCACHE_KEY: 0}`; any other
exception of `json.load` (an unparseable file) propagates, which the spec
names `StorageError`.  Returns the loaded store together with the metadata
file state after the call. -/
def load_cache_metadata_json : MetaFile → Except CacheErr (Store × MetaFile)
  | .parseable s => .ok (s, .parseable s)
  | .absent => .ok (emptyStore, .parseable emptyStore)
  | .corrupt => .error .storageError

/-- The inner loop of `delete_old_disk_caches` for one function's entry list:
builds `to_keep`, reports whether `cache_changed` was set by this list, and
threads the disk through `os.remove` calls on expired files. -/
def processCaches (disk : Disk α) : List CacheEntry → List CacheEntry × Bool × Disk α
  | [] => ([], false, disk)
  | e :: rest =>
    match diskLookup disk e.file_name with
    | none =>
      let (kept, _, d') := processCaches disk rest
      (kept, true, d')
    | some (_, age) =>
      if isExpired age e.max_age_days then
        let (kept, _, d') := processCaches (diskRemove disk e.file_name) rest
        (kept, true, d')
      else
        let (kept, c, d') := processCaches disk rest
        (e :: kept, c, d')

/-- The outer loop of `delete_old_disk_caches` over `cache_metadata.items()`.
`new_cache_metadata` starts as a deep copy, and a function's value is
reassigned to `to_keep` only when `to_keep` is non-empty; otherwise the copied
original list stays. -/
def evictAll (disk : Disk α) :
    List (String × List CacheEntry) → List (String × List CacheEntry) × Bool × Disk α
  | [] => ([], false, disk)
  | (fn, caches) :: rest =>
    let (kept, c, d') := processCaches disk caches
    let newList := if kept.isEmpty then caches else kept
    let (restOut, c', d'') := evictAll d' rest
    ((fn, newList) :: restOut, c || c', d'')

/-- `delete_old_disk_caches()`: load the store (given here already parsed),
partition every function's entries, and rewrite the metadata file only when
`cache_changed`. -/
def delete_old_disk_caches (persisted : Store) (disk : Disk α) : Store × Disk α :=
  let (funcs', changed, d') := evictAll disk persisted.funcs
  if changed then (⟨persisted.counter, funcs'⟩, d') else (persisted, d')

/-- The `os.remove` loop of `delete_disk_caches_for_function`: removes each
entry's artifact; `os.remove` on a missing file raises `FileNotFoundError`,
which aborts the loop.  Returns the success flag and the disk at the stop
point. -/
def removeFiles (disk : Disk α) : List CacheEntry → Bool × Disk α
  | [] => (true, disk)
  | e :: rest =>
    if diskHas disk e.file_name then removeFiles (diskRemove disk e.file_name) rest
    else (false, disk)

/-- Result of `delete_disk_caches_for_function`: whether it returned normally
(`ok = false` means `FileNotFoundError` escaped), the metadata file content
and the disk afterwards. -/
structure DelResult (α : Type) where
  ok : Bool
  persisted : Store
  disk : Disk α
  deriving Repr

/-- `delete_disk_caches_for_function(function_name)` (also the wrapper's
`cache_clear`): pop the function's entry list, remove every artifact file,
then rewrite the metadata file.  The pop happens on the in-memory dict, so if
any `os.remove` raises, the metadata file is never rewritten. -/
def delete_disk_caches_for_function (persisted : Store) (disk : Disk α)
    (fn : String) : DelResult α :=
  match lookupA persisted.funcs fn with
  | none => ⟨true, persisted, disk⟩
  | some caches =>
    let (ok, d') := removeFiles disk caches
    if ok then ⟨true, ⟨persisted.counter, removeA persisted.funcs fn⟩, d'⟩
    else ⟨false, persisted, d'⟩

/-- One invocation of the wrapped computation, as the wrapper observes it:
a normal return, the `NoCacheCondition` no-store signal carrying the
substitute `function_value`, or any other exception (identified by an opaque
token so that propagation can be seen to preserve it). -/
inductive CompResult (α : Type) where
  | ok (v : α)
  | noCache (v : α)
  | err (exc : Nat)
  deriving DecidableEq, Repr

/-- What one wrapper call does from the caller's point of view: return a
value, or let an exception escape (the computation's own, or the
`ConfigurationError` of `cache_function_value`). -/
inductive Outcome (α : Type) where
  | ret (v : α)
  | compErr (exc : Nat)
  | configErr
  deriving DecidableEq, Repr

/-- The state a wrapper call reads and writes: the metadata file content, the
artifact directory, and the process-lifetime `hits`/`misses`/`nocache`
counters held in the closure. -/
structure CallState (α : Type) where
  persisted : Store
  disk : Disk α
  hits : Nat
  misses : Nat
  nocache : Nat
  deriving Repr

/-- Result of one wrapper call: its outcome, the state afterwards, and
whether the wrapped computation was invoked. -/
structure CallResult (α : Type) where
  outcome : Outcome α
  state : CallState α
  invoked : Bool
  deriving Repr

/-- One call of `wrapper(*args, **kwargs)`: load the metadata file, call
`cache_exists`; on a hit count it and return the cached value without running
the computation; on a miss count it, run the computation and either propagate
its exception, honour `NoCacheCondition` (returning the substitute value and
counting `nocache`), or store the result via `cache_function_value` on the
dict `cache_exists` already mutated. -/
def wrapperCall (comp : CompResult α) (nDays : Int) (fn a k : String)
    (s : CallState α) : CallResult α :=
  let r := cache_exists s.disk s.persisted s.persisted fn a k
  match r.found with
  | some v => ⟨.ret v, ⟨r.persisted, r.disk, s.hits + 1, s.misses, s.nocache⟩, false⟩
  | none =>
    match comp with
    | .err c => ⟨.compErr c, ⟨r.persisted, r.disk, s.hits, s.misses + 1, s.nocache⟩, true⟩
    | .noCache x =>
      ⟨.ret x, ⟨r.persisted, r.disk, s.hits, s.misses + 1, s.nocache + 1⟩, true⟩
    | .ok v =>
      match cache_function_value v nDays r.disk r.meta fn a k with
      | .error _ => ⟨.configErr, ⟨r.persisted, r.disk, s.hits, s.misses + 1, s.nocache⟩, true⟩
      | .ok (d2, st2) => ⟨.ret v, ⟨st2, d2, s.hits, s.misses + 1, s.nocache⟩, true⟩

/-- `(lookupA st.funcs fn).getD []`: the entry list the store holds for a
function (empty when the function has no key). -/
def entriesOf (st : Store) (fn : String) : List CacheEntry :=
  (lookupA st.funcs fn).getD []

/-- Every file present on `d1` is present on `d2` with the same content and
age: `d1` was obtained from `d2` at most by deleting files. -/
def diskSub (d1 d2 : Disk α) : Prop :=
  ∀ n x, diskLookup d1 n = some x → diskLookup d2 n = some x

/-- Every cache entry recorded in `s1` is recorded in `s2` for the same
function: `s1` was obtained from `s2` at most by dropping entries. -/
def storeEntrySub (s1 s2 : Store) : Prop :=
  ∀ fn e, e ∈ entriesOf s1 fn → e ∈ entriesOf s2 fn

/-- The disk component of a scan outcome. -/
def scanOutDisk : ScanOut α → Disk α
  | .hitFound _ d => d
  | .missEnd _ _ d => d

/-- Every artifact filename referenced by an entry is derived (via
`str(c) + '.pkl'`) from a counter value strictly below the store's counter. -/
def filenamesBelowCounter (st : Store) : Prop :=
  ∀ fn e, e ∈ entriesOf st fn → ∃ c, c < st.counter ∧ e.file_name = mintName c

/-- Every artifact filename referenced by an entry is derived from a counter
value at most the store's counter. -/
def filenamesAtMostCounter (st : Store) : Prop :=
  ∀ fn e, e ∈ entriesOf st fn → ∃ c, c ≤ st.counter ∧ e.file_name = mintName c

/-- Concrete input for the lookup-after-drop scenario: two entries with the
same signature, the first one's artifact missing from disk. -/
def c2Entry1 : CacheEntry := ⟨"(1,)", "{}", "1.pkl", 7⟩

/-- Second entry of the scenario: same signature, artifact present, fresh. -/
def c2Entry2 : CacheEntry := ⟨"(1,)", "{}", "2.pkl", 7⟩

/-- Store for the lookup-after-drop scenario. -/
def c2Store : Store := ⟨3, [("f", [c2Entry1, c2Entry2])]⟩

/-- Disk for the lookup-after-drop scenario: only the second artifact exists. -/
def c2Disk : Disk Nat := [("2.pkl", 42, 0)]

/-- Concrete input for the eviction pass: one function whose single entry is
expired (age 10 against `max_age_days = 7`). -/
def c3Store : Store := ⟨5, [("f", [⟨"(1,)", "{}", "1.pkl", 7⟩])]⟩

/-- Disk for the eviction scenario: the single artifact, 10 days old. -/
def c3Disk : Disk Nat := [("1.pkl", 99, 10)]

/-- The store produced by inserting one value into the empty store. -/
def c8Store : Store := ⟨1, [("f", [⟨"(1,)", "{}", "1.pkl", 7⟩])]⟩

/-- The disk produced by inserting one value into the empty store. -/
def c8Disk : Disk Nat := [("1.pkl", 42, 0)]

theorem lookupA_updateA_self {β : Type} (l : List (String × β)) (key : String)
    (v : β) : lookupA (updateA l key v) key = some v := by
  induction l with
  | nil => simp [updateA, lookupA]
  | cons p rest ih =>
    obtain ⟨k', v'⟩ := p
    by_cases h : k' = key <;> simp [updateA, lookupA, h, ih]

theorem lookupA_updateA_ne {β : Type} (l : List (String × β)) (key key' : String)
    (v : β) (h : key' ≠ key) :
    lookupA (updateA l key v) key' = lookupA l key' := by
  induction l with
  | nil => simp [updateA, lookupA, Ne.symm h]
  | cons p rest ih =>
    obtain ⟨k', w⟩ := p
    by_cases hk : k' = key
    · subst hk
      simp [updateA, lookupA, Ne.symm h]
    · simp [updateA, lookupA, hk, ih]

theorem lookupA_removeA_self {β : Type} (l : List (String × β)) (key : String) :
    lookupA (removeA l key) key = none := by
  induction l with
  | nil => simp [removeA, lookupA]
  | cons p rest ih =>
    obtain ⟨k', v'⟩ := p
    by_cases h : k' = key <;> simp [removeA, lookupA, h, ih]

theorem lookupA_removeA_ne {β : Type} (l : List (String × β)) (key key' : String)
    (h : key' ≠ key) : lookupA (removeA l key) key' = lookupA l key' := by
  induction l with
  | nil => simp [removeA, lookupA]
  | cons p rest ih =>
    obtain ⟨k', v'⟩ := p
    by_cases hk : k' = key
    · subst hk
      simp [removeA, lookupA, Ne.symm h, ih]
    · simp [removeA, lookupA, hk, ih]

theorem entriesOf_updateA_self (st : Store) (c : Nat) (fn : String)
    (l : List CacheEntry) :
    entriesOf ⟨c, updateA st.funcs fn l⟩ fn = l := by
  simp [entriesOf, lookupA_updateA_self]

theorem entriesOf_updateA_ne (st : Store) (c : Nat) (fn fn' : String)
    (l : List CacheEntry) (h : fn' ≠ fn) :
    entriesOf ⟨c, updateA st.funcs fn l⟩ fn' = entriesOf st fn' := by
  simp [entriesOf, lookupA_updateA_ne _ _ _ _ h]

theorem scan_missEnd_char (a k : String) (caches : List CacheEntry) :
    ∀ (d : Disk α) (kept : List CacheEntry) (ch : Bool) (d' : Disk α),
      scan a k d caches = .missEnd kept ch d' →
      kept = caches.filter (fun e => !matchesSig e a k) ∧
      ch = caches.any (fun e => matchesSig e a k) := by
  induction caches with
  | nil =>
    intro d kept ch d' h
    simp only [scan, ScanOut.missEnd.injEq] at h
    simp [← h.1, ← h.2.1]
  | cons e rest ih =>
    intro d kept ch d' h
    cases hm : matchesSig e a k with
    | false =>
      simp only [scan, hm, Bool.false_eq_true, if_false] at h
      cases hs : scan a k d rest with
      | hitFound v dd => rw [hs] at h; exact absurd h (by simp)
      | missEnd k0 c0 d0 =>
        rw [hs] at h
        simp only [ScanOut.missEnd.injEq] at h
        obtain ⟨ih1, ih2⟩ := ih d k0 c0 d0 hs
        simp [← h.1, ← h.2.1, List.filter_cons, List.any_cons, hm, ih1, ih2]
    | true =>
      simp only [scan, hm, if_true] at h
      cases hdl : diskLookup d e.file_name with
      | none =>
        rw [hdl] at h
        cases hs : scan a k d rest with
        | hitFound v dd => rw [hs] at h; exact absurd h (by simp)
        | missEnd k0 c0 d0 =>
          rw [hs] at h
          simp only [ScanOut.missEnd.injEq] at h
          obtain ⟨ih1, ih2⟩ := ih d k0 c0 d0 hs
          simp [← h.1, ← h.2.1, List.filter_cons, List.any_cons, hm, ih1, ih2]
      | some p =>
        rw [hdl] at h
        obtain ⟨v, age⟩ := p
        by_cases hex : isExpired age e.max_age_days
        · simp only [hex, if_true] at h
          cases hs : scan a k (diskRemove d e.file_name) rest with
          | hitFound v' dd => rw [hs] at h; exact absurd h (by simp)
          | missEnd k0 c0 d0 =>
            rw [hs] at h
            simp only [ScanOut.missEnd.injEq] at h
            obtain ⟨ih1, ih2⟩ := ih _ k0 c0 d0 hs
            simp [← h.1, ← h.2.1, List.filter_cons, List.any_cons, hm, ih1, ih2]
        · simp only [hex, if_false] at h
          exact absurd h (by simp)

/-- On a Hit, `cache_exists` returns early: the in-memory dict and the
metadata file are left exactly as they were. -/
theorem cache_exists_hit_no_write (d : Disk α) (st : Store) (fn a k : String)
    (v : α) (h : (cache_exists d st st fn a k).found = some v) :
    (cache_exists d st st fn a k).meta = st ∧
    (cache_exists d st st fn a k).persisted = st := by
  cases hl : lookupA st.funcs fn with
  | none => simp [cache_exists, hl]
  | some caches =>
    cases hs : scan a k d caches with
    | hitFound w dd => simp [cache_exists, hl, hs]
    | missEnd k0 c0 d0 =>
      simp only [cache_exists, hl, hs] at h
      cases c0 <;> simp_all

/-- After a Miss, the in-memory dict holds for the queried function exactly
the entries whose signature does not match: every matching entry encountered
by the scan was dropped. -/
theorem cache_exists_miss_entries (d : Disk α) (st : Store) (fn a k : String)
    (h : (cache_exists d st st fn a k).found = none) :
    entriesOf (cache_exists d st st fn a k).meta fn =
      (entriesOf st fn).filter (fun e => !matchesSig e a k) := by
  cases hl : lookupA st.funcs fn with
  | none => simp [cache_exists, hl, entriesOf]
  | some caches =>
    cases hs : scan a k d caches with
    | hitFound w dd =>
      simp only [cache_exists, hl, hs] at h
      exact absurd h (by simp)
    | missEnd k0 c0 d0 =>
      obtain ⟨hk, hc⟩ := scan_missEnd_char a k caches d k0 c0 d0 hs
      cases c0 with
      | true =>
        by_cases hemp : k0.isEmpty
        · have hk0 : k0 = [] := List.isEmpty_iff.mp hemp
          simp [cache_exists, hl, hs, hemp, entriesOf, lookupA_removeA_self,
            ← hk, hk0]
        · simp [cache_exists, hl, hs, hemp, entriesOf, lookupA_updateA_self, ← hk]
      | false =>
        have hnone : ∀ e ∈ caches, matchesSig e a k = false := by
          intro e he
          have hany : caches.any (fun e => matchesSig e a k) = false := hc.symm
          simpa using List.any_eq_false.mp hany e he
        simp only [cache_exists, hl, hs, Bool.false_eq_true, if_false,
          entriesOf, hl, Option.getD_some]
        exact (List.filter_eq_self.mpr fun e he => by simp [hnone e he]).symm

/-- `cache_exists` never changes the stored counter, in memory or on file. -/
theorem cache_exists_counters (d : Disk α) (st : Store) (fn a k : String) :
    (cache_exists d st st fn a k).meta.counter = st.counter ∧
    (cache_exists d st st fn a k).persisted.counter = st.counter := by
  cases hl : lookupA st.funcs fn with
  | none => simp [cache_exists, hl]
  | some caches =>
    cases hs : scan a k d caches with
    | hitFound w dd => simp [cache_exists, hl, hs]
    | missEnd k0 c0 d0 =>
      cases c0 with
      | true =>
        by_cases hemp : k0.isEmpty <;> simp [cache_exists, hl, hs, hemp]
      | false => simp [cache_exists, hl, hs]

/-- C2 (amended): when the lookup returns a Miss and at least one scanned
entry matched the signature (hence was dropped), the metadata file is
rewritten before returning, holding for the function exactly the non-matching
entries — or losing the function's key when none remain. -/
theorem miss_prune_rewrite (d : Disk α) (st : Store) (fn a k : String)
    (caches : List CacheEntry) (hl : lookupA st.funcs fn = some caches)
    (hmiss : (cache_exists d st st fn a k).found = none)
    (hdrop : ∃ e ∈ caches, matchesSig e a k = true) :
    (cache_exists d st st fn a k).persisted =
      (if (caches.filter (fun e => !matchesSig e a k)).isEmpty
       then (⟨st.counter, removeA st.funcs fn⟩ : Store)
       else ⟨st.counter, updateA st.funcs fn
              (caches.filter (fun e => !matchesSig e a k))⟩) := by
  cases hs : scan a k d caches with
  | hitFound w dd =>
    simp only [cache_exists, hl, hs] at hmiss
    exact absurd hmiss (by simp)
  | missEnd k0 c0 d0 =>
    obtain ⟨hk, hc⟩ := scan_missEnd_char a k caches d k0 c0 d0 hs
    cases c0 with
    | true =>
      by_cases hemp : k0.isEmpty <;>
        simp [cache_exists, hl, hs, hemp, ← hk]
    | false =>
      obtain ⟨e, he, hme⟩ := hdrop
      have hany : caches.any (fun e => matchesSig e a k) = true :=
        List.any_eq_true.mpr ⟨e, he, hme⟩
      rw [hany] at hc
      exact absurd hc (by simp)

/-- Witness instance of the amended C2 statement: a store whose single entry
for `f` matches the signature but has no artifact on disk, so the lookup
misses, drops it, and rewrites the file without the `f` key. -/
theorem miss_prune_rewrite_witness :
    lookupA (Store.mk 1 [("f", [⟨"(1,)", "{}", "9.pkl", 7⟩])]).funcs "f" =
      some [⟨"(1,)", "{}", "9.pkl", 7⟩] ∧
    (cache_exists ([] : Disk Nat) ⟨1, [("f", [⟨"(1,)", "{}", "9.pkl", 7⟩])]⟩
        ⟨1, [("f", [⟨"(1,)", "{}", "9.pkl", 7⟩])]⟩ "f" "(1,)" "{}").found = none ∧
    (∃ e ∈ [(⟨"(1,)", "{}", "9.pkl", 7⟩ : CacheEntry)],
        matchesSig e "(1,)" "{}" = true) ∧
    (cache_exists ([] : Disk Nat) ⟨1, [("f", [⟨"(1,)", "{}", "9.pkl", 7⟩])]⟩
        ⟨1, [("f", [⟨"(1,)", "{}", "9.pkl", 7⟩])]⟩ "f" "(1,)" "{}").persisted =
      (if (([⟨"(1,)", "{}", "9.pkl", 7⟩] :
              List CacheEntry).filter (fun e => !matchesSig e "(1,)" "{}")).isEmpty
       then (⟨1, removeA [("f", [⟨"(1,)", "{}", "9.pkl", 7⟩])] "f"⟩ : Store)
       else ⟨1, updateA [("f", [⟨"(1,)", "{}", "9.pkl", 7⟩])] "f"
              (([⟨"(1,)", "{}", "9.pkl", 7⟩] :
                 List CacheEntry).filter (fun e => !matchesSig e "(1,)" "{}"))⟩) :=
  ⟨rfl, rfl, by decide,
    miss_prune_rewrite [] ⟨1, [("f", [⟨"(1,)", "{}", "9.pkl", 7⟩])]⟩ "f" "(1,)" "{}"
      [⟨"(1,)", "{}", "9.pkl", 7⟩] rfl rfl (by decide)⟩

/-- C8 (amended): every successful insert raises the counter by exactly one,
and it preserves the invariant that every referenced artifact filename is
derived from a counter value at most the current counter. -/
theorem insert_increments_counter (β : Type) (v : β) (nDays : Int) (d : Disk β)
    (st : Store) (fn a k : String) (d' : Disk β) (st' : Store)
    (hok : cache_function_value v nDays d st fn a k = .ok (d', st'))
    (hinv : filenamesAtMostCounter st) :
    st'.counter = st.counter + 1 ∧ filenamesAtMostCounter st' := by
  by_cases hfn : fn = TOTAL_NUMCACHE_KEY
  · simp [cache_function_value, hfn] at hok
  · simp only [cache_function_value, hfn, if_false, Except.ok.injEq,
      Prod.mk.injEq] at hok
    obtain ⟨hd, hst⟩ := hok
    subst hst
    refine ⟨rfl, ?_⟩
    intro fn' e he
    by_cases h : fn' = fn
    · subst h
      rw [entriesOf_updateA_self] at he
      rcases List.mem_append.mp he with h1 | h2
      · obtain ⟨c, hc, hm⟩ := hinv fn' e h1
        exact ⟨c, Nat.le_succ_of_le hc, hm⟩
      · rw [List.mem_singleton.mp h2]
        exact ⟨st.counter + 1, le_refl _, rfl⟩
    · rw [entriesOf_updateA_ne _ _ _ _ _ h] at he
      obtain ⟨c, hc, hm⟩ := hinv fn' e he
      exact ⟨c, Nat.le_succ_of_le hc, hm⟩

/-- Witness instance of the amended C8 statement: inserting into the freshly
initialized store. -/
theorem insert_increments_counter_witness :
    (cache_function_value (α := Nat) 42 7 [] emptyStore "g" "(2,)" "{}" =
      .ok ([("1.pkl", 42, 0)], ⟨1, [("g", [⟨"(2,)", "{}", "1.pkl", 7⟩])]⟩)) ∧
    filenamesAtMostCounter emptyStore ∧
    ((Store.mk 1 [("g", [⟨"(2,)", "{}", "1.pkl", 7⟩])]).counter =
        emptyStore.counter + 1 ∧
      filenamesAtMostCounter ⟨1, [("g", [⟨"(2,)", "{}", "1.pkl", 7⟩])]⟩) :=
  have hinv : filenamesAtMostCounter emptyStore := by
    intro fn e he
    simp [entriesOf, emptyStore, lookupA] at he
  ⟨rfl, hinv,
    insert_increments_counter Nat 42 7 [] emptyStore "g" "(2,)" "{}"
      [("1.pkl", 42, 0)] ⟨1, [("g", [⟨"(2,)", "{}", "1.pkl", 7⟩])]⟩ rfl hinv⟩

theorem lookupA_removeA_some {β : Type} (l : List (String × β))
    (key key' : String) (v : β) (h : lookupA (removeA l key) key' = some v) :
    lookupA l key' = some v := by
  by_cases hk : key' = key
  · subst hk
    rw [lookupA_removeA_self] at h
    exact absurd h (by simp)
  · rwa [lookupA_removeA_ne _ _ _ hk] at h

theorem diskSub_refl (d : Disk α) : diskSub d d := fun _ _ h => h

theorem diskSub_trans {d1 d2 d3 : Disk α} (h12 : diskSub d1 d2)
    (h23 : diskSub d2 d3) : diskSub d1 d3 :=
  fun n x h => h23 n x (h12 n x h)

theorem diskSub_diskRemove (d : Disk α) (n : String) :
    diskSub (diskRemove d n) d :=
  fun m x h => lookupA_removeA_some d n m x h

theorem diskHas_diskRemove_false (d : Disk α) (n m : String)
    (h : diskHas d m = false) : diskHas (diskRemove d n) m = false := by
  by_cases hnm : m = n
  · subst hnm
    simp [diskHas, diskLookup, diskRemove, lookupA_removeA_self]
  · simpa [diskHas, diskLookup, diskRemove,
      lookupA_removeA_ne _ _ _ hnm] using h

theorem removeFiles_aborts (caches : List CacheEntry) :
    ∀ d : Disk α, (∃ e ∈ caches, diskHas d e.file_name = false) →
      (removeFiles d caches).1 = false := by
  induction caches with
  | nil =>
    intro d h
    obtain ⟨e, he, _⟩ := h
    simp at he
  | cons e1 rest ih =>
    intro d h
    obtain ⟨e, he, hmiss⟩ := h
    by_cases h1 : diskHas d e1.file_name
    · rw [removeFiles, if_pos h1]
      apply ih
      rcases List.mem_cons.mp he with rfl | hr
      · exact absurd h1 (by simp [hmiss])
      · exact ⟨e, hr, diskHas_diskRemove_false _ _ _ hmiss⟩
    · rw [removeFiles, if_neg h1]

/-- C10: when any entry of a function's set references a missing artifact,
`delete_disk_caches_for_function` (the wrapper's `cache_clear`) hits
`FileNotFoundError` and never reaches `write_cache_file`, so the metadata
file keeps the function's key and all its entries unchanged. -/
theorem clear_missing_artifact_aborts (p : Store) (d : Disk α) (fn : String)
    (caches : List CacheEntry) (e : CacheEntry)
    (hl : lookupA p.funcs fn = some caches) (he : e ∈ caches)
    (hmiss : diskHas d e.file_name = false) :
    (delete_disk_caches_for_function p d fn).ok = false ∧
    (delete_disk_caches_for_function p d fn).persisted = p := by
  have hab : (removeFiles d caches).1 = false :=
    removeFiles_aborts caches d ⟨e, he, hmiss⟩
  cases hr : removeFiles d caches with
  | mk ok d' =>
    have hok : ok = false := by rw [hr] at hab; exact hab
    subst hok
    simp [delete_disk_caches_for_function, hl, hr]

/-- Witness instance of C10: a function whose single recorded artifact is
absent from the (empty) disk. -/
theorem clear_missing_artifact_aborts_witness :
    lookupA (Store.mk 2 [("h", [⟨"(1,)", "{}", "3.pkl", 7⟩])]).funcs "h" =
      some [⟨"(1,)", "{}", "3.pkl", 7⟩] ∧
    (⟨"(1,)", "{}", "3.pkl", 7⟩ : CacheEntry) ∈
      [(⟨"(1,)", "{}", "3.pkl", 7⟩ : CacheEntry)] ∧
    diskHas ([] : Disk Nat) (CacheEntry.file_name ⟨"(1,)", "{}", "3.pkl", 7⟩) =
      false ∧
    ((delete_disk_caches_for_function
        ⟨2, [("h", [⟨"(1,)", "{}", "3.pkl", 7⟩])]⟩ ([] : Disk Nat) "h").ok =
        false ∧
      (delete_disk_caches_for_function
        ⟨2, [("h", [⟨"(1,)", "{}", "3.pkl", 7⟩])]⟩ ([] : Disk Nat) "h").persisted =
        ⟨2, [("h", [⟨"(1,)", "{}", "3.pkl", 7⟩])]⟩) :=
  ⟨rfl, by decide, rfl,
    clear_missing_artifact_aborts ⟨2, [("h", [⟨"(1,)", "{}", "3.pkl", 7⟩])]⟩ []
      "h" [⟨"(1,)", "{}", "3.pkl", 7⟩] ⟨"(1,)", "{}", "3.pkl", 7⟩ rfl
      (by decide) rfl⟩

theorem scan_disk_sub (a k : String) (caches : List CacheEntry) :
    ∀ d : Disk α, diskSub (scanOutDisk (scan a k d caches)) d := by
  induction caches with
  | nil =>
    intro d
    simpa [scan, scanOutDisk] using diskSub_refl d
  | cons e rest ih =>
    intro d
    cases hm : matchesSig e a k with
    | false =>
      have hsub := ih d
      cases hs : scan a k d rest with
      | hitFound v dd =>
        rw [hs] at hsub
        simpa [scan, hm, hs, scanOutDisk] using hsub
      | missEnd k0 c0 d0 =>
        rw [hs] at hsub
        simpa [scan, hm, hs, scanOutDisk] using hsub
    | true =>
      cases hdl : diskLookup d e.file_name with
      | none =>
        have hsub := ih d
        cases hs : scan a k d rest with
        | hitFound v dd =>
          rw [hs] at hsub
          simpa [scan, hm, hdl, hs, scanOutDisk] using hsub
        | missEnd k0 c0 d0 =>
          rw [hs] at hsub
          simpa [scan, hm, hdl, hs, scanOutDisk] using hsub
      | some p =>
        obtain ⟨v, age⟩ := p
        by_cases hex : isExpired age e.max_age_days
        · have hsub := ih (diskRemove d e.file_name)
          have hrem := diskSub_diskRemove d e.file_name
          cases hs : scan a k (diskRemove d e.file_name) rest with
          | hitFound v' dd =>
            rw [hs] at hsub
            simp only [scan, hm, hdl, hex, if_true, hs, scanOutDisk]
            exact diskSub_trans (by simpa [scanOutDisk] using hsub) hrem
          | missEnd k0 c0 d0 =>
            rw [hs] at hsub
            simp only [scan, hm, hdl, hex, if_true, hs, scanOutDisk]
            exact diskSub_trans (by simpa [scanOutDisk] using hsub) hrem
        · simpa [scan, hm, hdl, hex, scanOutDisk] using diskSub_refl d

theorem cache_exists_disk_sub (d : Disk α) (st : Store) (fn a k : String) :
    diskSub (cache_exists d st st fn a k).disk d := by
  cases hl : lookupA st.funcs fn with
  | none => simpa [cache_exists, hl] using diskSub_refl d
  | some caches =>
    have h := scan_disk_sub a k caches d
    cases hs : scan a k d caches with
    | hitFound v dd =>
      rw [hs] at h
      simpa [cache_exists, hl, hs, scanOutDisk] using h
    | missEnd k0 c0 d0 =>
      rw [hs] at h
      cases c0 with
      | true =>
        by_cases hemp : k0.isEmpty <;>
          simpa [cache_exists, hl, hs, hemp, scanOutDisk] using h
      | false => simpa [cache_exists, hl, hs, scanOutDisk] using h

theorem storeEntrySub_refl (st : Store) : storeEntrySub st st := fun _ _ h => h

theorem cache_exists_entries_sub (d : Disk α) (st : Store) (fn a k : String) :
    storeEntrySub (cache_exists d st st fn a k).meta st ∧
    storeEntrySub (cache_exists d st st fn a k).persisted st := by
  cases hl : lookupA st.funcs fn with
  | none =>
    refine ⟨?_, ?_⟩ <;> (simp only [cache_exists, hl]; exact storeEntrySub_refl st)
  | some caches =>
    cases hs : scan a k d caches with
    | hitFound v dd =>
      refine ⟨?_, ?_⟩ <;>
        (simp only [cache_exists, hl, hs]; exact storeEntrySub_refl st)
    | missEnd k0 c0 d0 =>
      obtain ⟨hk, _⟩ := scan_missEnd_char a k caches d k0 c0 d0 hs
      cases c0 with
      | false =>
        refine ⟨?_, ?_⟩ <;>
          (simp only [cache_exists, hl, hs, Bool.false_eq_true, if_false]
           exact storeEntrySub_refl st)
      | true =>
        by_cases hemp : k0.isEmpty
        · have hsub : storeEntrySub ⟨st.counter, removeA st.funcs fn⟩ st := by
            intro fn' e he
            by_cases h : fn' = fn
            · subst h
              simp [entriesOf, lookupA_removeA_self] at he
            · rwa [show entriesOf ⟨st.counter, removeA st.funcs fn⟩ fn' =
                  entriesOf st fn' from by
                simp [entriesOf, lookupA_removeA_ne _ _ _ h]] at he
          refine ⟨?_, ?_⟩ <;>
            (simp only [cache_exists, hl, hs, if_true, hemp]; exact hsub)
        · have hsub : storeEntrySub ⟨st.counter, updateA st.funcs fn k0⟩ st := by
            intro fn' e he
            by_cases h : fn' = fn
            · subst h
              rw [entriesOf_updateA_self, hk] at he
              have hmem := (List.mem_filter.mp he).1
              simpa [entriesOf, hl] using hmem
            · rwa [entriesOf_updateA_ne _ _ _ _ _ h] at he
          refine ⟨?_, ?_⟩ <;>
            (simp only [cache_exists, hl, hs, if_true, hemp, Bool.false_eq_true,
               if_false]
             exact hsub)

/-- C4: when the lookup misses and the wrapped computation raises any
exception other than `NoCacheCondition`, the wrapper propagates it: the call
does not return a value, `cache_function_value` is never reached, so the disk
holds no new artifact (it can only have lost stale files pruned during the
lookup), no new entry appears in the metadata file, and the counter is
untouched. -/
theorem comp_error_propagates (s : CallState α) (c : Nat) (nDays : Int)
    (fn a k : String)
    (hmiss : (cache_exists s.disk s.persisted s.persisted fn a k).found = none) :
    (wrapperCall (.err c) nDays fn a k s).outcome = Outcome.compErr c ∧
    (wrapperCall (.err c) nDays fn a k s).invoked = true ∧
    diskSub (wrapperCall (.err c) nDays fn a k s).state.disk s.disk ∧
    storeEntrySub (wrapperCall (.err c) nDays fn a k s).state.persisted
      s.persisted ∧
    (wrapperCall (.err c) nDays fn a k s).state.persisted.counter =
      s.persisted.counter := by
  simp only [wrapperCall, hmiss]
  exact ⟨trivial, trivial, cache_exists_disk_sub s.disk s.persisted fn a k,
    (cache_exists_entries_sub s.disk s.persisted fn a k).2,
    (cache_exists_counters s.disk s.persisted fn a k).2⟩

/-- Witness instance of C4: an erroring computation on the fresh empty
state. -/
theorem comp_error_propagates_witness :
    (cache_exists ([] : Disk Nat) emptyStore emptyStore "f" "(1,)" "{}").found =
      none ∧
    ((wrapperCall (α := Nat) (.err 3) 7 "f" "(1,)" "{}"
          ⟨emptyStore, [], 0, 0, 0⟩).outcome = Outcome.compErr 3 ∧
      (wrapperCall (α := Nat) (.err 3) 7 "f" "(1,)" "{}"
          ⟨emptyStore, [], 0, 0, 0⟩).invoked = true ∧
      diskSub (wrapperCall (α := Nat) (.err 3) 7 "f" "(1,)" "{}"
          ⟨emptyStore, [], 0, 0, 0⟩).state.disk [] ∧
      storeEntrySub (wrapperCall (α := Nat) (.err 3) 7 "f" "(1,)" "{}"
          ⟨emptyStore, [], 0, 0, 0⟩).state.persisted emptyStore ∧
      (wrapperCall (α := Nat) (.err 3) 7 "f" "(1,)" "{}"
          ⟨emptyStore, [], 0, 0, 0⟩).state.persisted.counter =
        emptyStore.counter) :=
  ⟨rfl, comp_error_propagates ⟨emptyStore, [], 0, 0, 0⟩ 3 7 "f" "(1,)" "{}" rfl⟩

/-- C5: when the lookup misses and the computation raises
`NoCacheCondition(function_value = x)`, the wrapper returns `x`, bumps only
the `nocache` counter, and never calls `cache_function_value`: no entry is
added to the metadata file and the stored counter is untouched. -/
theorem nocache_no_insert (s : CallState α) (x : α) (nDays : Int)
    (fn a k : String)
    (hmiss : (cache_exists s.disk s.persisted s.persisted fn a k).found = none) :
    (wrapperCall (.noCache x) nDays fn a k s).outcome = Outcome.ret x ∧
    (wrapperCall (.noCache x) nDays fn a k s).state.nocache = s.nocache + 1 ∧
    (wrapperCall (.noCache x) nDays fn a k s).invoked = true ∧
    storeEntrySub (wrapperCall (.noCache x) nDays fn a k s).state.persisted
      s.persisted ∧
    (wrapperCall (.noCache x) nDays fn a k s).state.persisted.counter =
      s.persisted.counter := by
  simp only [wrapperCall, hmiss]
  exact ⟨trivial, trivial, trivial,
    (cache_exists_entries_sub s.disk s.persisted fn a k).2,
    (cache_exists_counters s.disk s.persisted fn a k).2⟩

/-- Witness instance of C5: a no-store signal with substitute value 5 on the
fresh empty state. -/
theorem nocache_no_insert_witness :
    (cache_exists ([] : Disk Nat) emptyStore emptyStore "f" "(1,)" "{}").found =
      none ∧
    ((wrapperCall (α := Nat) (.noCache 5) 7 "f" "(1,)" "{}"
          ⟨emptyStore, [], 0, 0, 0⟩).outcome = Outcome.ret 5 ∧
      (wrapperCall (α := Nat) (.noCache 5) 7 "f" "(1,)" "{}"
          ⟨emptyStore, [], 0, 0, 0⟩).state.nocache = 0 + 1 ∧
      (wrapperCall (α := Nat) (.noCache 5) 7 "f" "(1,)" "{}"
          ⟨emptyStore, [], 0, 0, 0⟩).invoked = true ∧
      storeEntrySub (wrapperCall (α := Nat) (.noCache 5) 7 "f" "(1,)" "{}"
          ⟨emptyStore, [], 0, 0, 0⟩).state.persisted emptyStore ∧
      (wrapperCall (α := Nat) (.noCache 5) 7 "f" "(1,)" "{}"
          ⟨emptyStore, [], 0, 0, 0⟩).state.persisted.counter =
        emptyStore.counter) :=
  ⟨rfl, nocache_no_insert ⟨emptyStore, [], 0, 0, 0⟩ 5 7 "f" "(1,)" "{}" rfl⟩

theorem isExpired_zero (age : Int) : isExpired age 0 = false := by
  simp [isExpired, UNLIMITED_CACHE_AGE]

theorem diskHas_diskRemove_ne (d : Disk α) (n m : String) (h : m ≠ n) :
    diskHas (diskRemove d n) m = diskHas d m := by
  simp [diskHas, diskLookup, diskRemove, lookupA_removeA_ne _ _ _ h]

/-- The eviction loop never deletes a file all of whose referencing entries
carry the unlimited-retention sentinel: only the expired branch (which
requires `max_age_days ≠ 0`) calls `os.remove`. -/
theorem processCaches_preserves_file (nm : String) (caches : List CacheEntry) :
    ∀ d : Disk α, (∀ e' ∈ caches, e'.file_name = nm → e'.max_age_days = 0) →
      diskHas d nm = true → diskHas (processCaches d caches).2.2 nm = true := by
  induction caches with
  | nil =>
    intro d _ h
    simpa [processCaches] using h
  | cons e rest ih =>
    intro d hprot h
    have hprot' : ∀ e' ∈ rest, e'.file_name = nm → e'.max_age_days = 0 :=
      fun e' he' => hprot e' (List.mem_cons_of_mem _ he')
    cases hdl : diskLookup d e.file_name with
    | none =>
      have hr := ih d hprot' h
      rcases hpc : processCaches d rest with ⟨kept, c, d'⟩
      rw [hpc] at hr
      simpa [processCaches, hdl, hpc] using hr
    | some p =>
      obtain ⟨v, age⟩ := p
      by_cases hex : isExpired age e.max_age_days
      · have hne : e.file_name ≠ nm := by
          intro heq
          have h0 := hprot e (List.mem_cons_self _ _) heq
          rw [h0, isExpired_zero] at hex
          exact absurd hex (by simp)
        have hstill : diskHas (diskRemove d e.file_name) nm = true := by
          rw [diskHas_diskRemove_ne _ _ _ (Ne.symm hne)]
          exact h
        have hr := ih (diskRemove d e.file_name) hprot' hstill
        rcases hpc : processCaches (diskRemove d e.file_name) rest with ⟨kept, c, d'⟩
        rw [hpc] at hr
        simpa [processCaches, hdl, hex, hpc] using hr
      · have hr := ih d hprot' h
        rcases hpc : processCaches d rest with ⟨kept, c, d'⟩
        rw [hpc] at hr
        simpa [processCaches, hdl, hex, hpc] using hr

/-- An entry with the unlimited-retention sentinel whose artifact exists (and
whose file no aged entry shares) survives the eviction loop's partition. -/
theorem processCaches_keeps_entry (e : CacheEntry) (caches : List CacheEntry) :
    ∀ d : Disk α, e ∈ caches → e.max_age_days = 0 →
      (∀ e' ∈ caches, e'.file_name = e.file_name → e'.max_age_days = 0) →
      diskHas d e.file_name = true → e ∈ (processCaches d caches).1 := by
  induction caches with
  | nil =>
    intro d he
    simp at he
  | cons e1 rest ih =>
    intro d he h0 hprot h
    have hprot' : ∀ e' ∈ rest, e'.file_name = e.file_name → e'.max_age_days = 0 :=
      fun e' he' => hprot e' (List.mem_cons_of_mem _ he')
    cases hdl : diskLookup d e1.file_name with
    | none =>
      have hee1 : e ≠ e1 := by
        intro heq
        rw [heq] at h
        simp [diskHas, hdl] at h
      have her : e ∈ rest := (List.mem_cons.mp he).resolve_left hee1
      have hr := ih d her h0 hprot' h
      rcases hpc : processCaches d rest with ⟨kept, c, d'⟩
      rw [hpc] at hr
      simpa [processCaches, hdl, hpc] using hr
    | some p =>
      obtain ⟨v, age⟩ := p
      by_cases hex : isExpired age e1.max_age_days
      · have hne : e1.file_name ≠ e.file_name := by
          intro heq
          have h01 := hprot e1 (List.mem_cons_self _ _) heq
          rw [h01, isExpired_zero] at hex
          exact absurd hex (by simp)
        have hee1 : e ≠ e1 := by
          intro heq
          rw [← heq, h0, isExpired_zero] at hex
          exact absurd hex (by simp)
        have her : e ∈ rest := (List.mem_cons.mp he).resolve_left hee1
        have hstill : diskHas (diskRemove d e1.file_name) e.file_name = true := by
          rw [diskHas_diskRemove_ne _ _ _ (Ne.symm hne)]
          exact h
        have hr := ih (diskRemove d e1.file_name) her h0 hprot' hstill
        rcases hpc : processCaches (diskRemove d e1.file_name) rest with ⟨kept, c, d'⟩
        rw [hpc] at hr
        simpa [processCaches, hdl, hex, hpc] using hr
      · rcases List.mem_cons.mp he with heq | her
        · rcases hpc : processCaches d rest with ⟨kept, c, d'⟩
          simp [processCaches, hdl, hex, hpc, heq]
        · have hr := ih d her h0 hprot' h
          rcases hpc : processCaches d rest with ⟨kept, c, d'⟩
          rw [hpc] at hr
          simp [processCaches, hdl, hex, hpc]
          exact Or.inr hr

theorem lookupA_mem {β : Type} (l : List (String × β)) (k : String) (v : β)
    (h : lookupA l k = some v) : (k, v) ∈ l := by
  induction l with
  | nil => simp [lookupA] at h
  | cons p rest ih =>
    obtain ⟨k', v'⟩ := p
    by_cases hk : k' = k
    · subst hk
      have hv : v' = v := by simpa [lookupA] using h
      subst hv
      exact List.mem_cons_self _ _
    · rw [lookupA, if_neg hk] at h
      exact List.mem_cons_of_mem _ (ih h)

theorem evictAll_preserves_file (nm : String)
    (funcs : List (String × List CacheEntry)) :
    ∀ d : Disk α,
      (∀ p ∈ funcs, ∀ e' ∈ p.2, e'.file_name = nm → e'.max_age_days = 0) →
      diskHas d nm = true → diskHas (evictAll d funcs).2.2 nm = true := by
  induction funcs with
  | nil =>
    intro d _ h
    simpa [evictAll] using h
  | cons p rest ih =>
    obtain ⟨fn, caches⟩ := p
    intro d hprot h
    have h1 := processCaches_preserves_file nm caches d
      (hprot (fn, caches) (List.mem_cons_self _ _)) h
    rcases hpc : processCaches d caches with ⟨kept, c, d'⟩
    rw [hpc] at h1
    have h2 := ih d' (fun q hq => hprot q (List.mem_cons_of_mem _ hq)) h1
    rcases hev : evictAll d' rest with ⟨fr, cr, dr⟩
    rw [hev] at h2
    simpa [evictAll, hpc, hev] using h2

theorem evictAll_keeps_entry (e : CacheEntry) (fn : String)
    (funcs : List (String × List CacheEntry)) :
    ∀ (d : Disk α) (caches : List CacheEntry),
      lookupA funcs fn = some caches → e ∈ caches → e.max_age_days = 0 →
      (∀ p ∈ funcs, ∀ e' ∈ p.2, e'.file_name = e.file_name →
        e'.max_age_days = 0) →
      diskHas d e.file_name = true →
      ∃ l', lookupA (evictAll d funcs).1 fn = some l' ∧ e ∈ l' := by
  induction funcs with
  | nil =>
    intro d caches hl
    simp [lookupA] at hl
  | cons p rest ih =>
    obtain ⟨fn1, c1⟩ := p
    intro d caches hl he h0 hprot h
    by_cases hfn : fn1 = fn
    · subst hfn
      have hc1 : c1 = caches := by simpa [lookupA] using hl
      subst hc1
      have hkeep := processCaches_keeps_entry e c1 d he h0
        (hprot (fn1, c1) (List.mem_cons_self _ _)) h
      rcases hpc : processCaches d c1 with ⟨kept, c, d'⟩
      rw [hpc] at hkeep
      have hne : kept.isEmpty = false := by
        cases kept
        · simp at hkeep
        · simp
      rcases hev : evictAll d' rest with ⟨fr, cr, dr⟩
      refine ⟨kept, ?_, hkeep⟩
      simp [evictAll, hpc, hev, hne, lookupA]
    · have hl' : lookupA rest fn = some caches := by
        simpa [lookupA, hfn] using hl
      have h1 := processCaches_preserves_file e.file_name c1 d
        (hprot (fn1, c1) (List.mem_cons_self _ _)) h
      rcases hpc : processCaches d c1 with ⟨kept, c, d'⟩
      rw [hpc] at h1
      obtain ⟨l', hll, hel⟩ := ih d' caches hl' he h0
        (fun q hq => hprot q (List.mem_cons_of_mem _ hq)) h1
      rcases hev : evictAll d' rest with ⟨fr, cr, dr⟩
      rw [hev] at hll
      refine ⟨l', ?_, hel⟩
      simp [evictAll, hpc, hev, lookupA, hfn, hll]

theorem scan_preserves_file (a k nm : String) (caches : List CacheEntry) :
    ∀ d : Disk α, (∀ e' ∈ caches, e'.file_name = nm → e'.max_age_days = 0) →
      diskHas d nm = true →
      diskHas (scanOutDisk (scan a k d caches)) nm = true := by
  induction caches with
  | nil =>
    intro d _ h
    simpa [scan, scanOutDisk] using h
  | cons e rest ih =>
    intro d hprot h
    have hprot' : ∀ e' ∈ rest, e'.file_name = nm → e'.max_age_days = 0 :=
      fun e' he' => hprot e' (List.mem_cons_of_mem _ he')
    cases hm : matchesSig e a k with
    | false =>
      have hr := ih d hprot' h
      cases hs : scan a k d rest with
      | hitFound v dd =>
        rw [hs] at hr
        simpa [scan, hm, hs, scanOutDisk] using hr
      | missEnd k0 c0 d0 =>
        rw [hs] at hr
        simpa [scan, hm, hs, scanOutDisk] using hr
    | true =>
      cases hdl : diskLookup d e.file_name with
      | none =>
        have hr := ih d hprot' h
        cases hs : scan a k d rest with
        | hitFound v dd =>
          rw [hs] at hr
          simpa [scan, hm, hdl, hs, scanOutDisk] using hr
        | missEnd k0 c0 d0 =>
          rw [hs] at hr
          simpa [scan, hm, hdl, hs, scanOutDisk] using hr
      | some p =>
        obtain ⟨v, age⟩ := p
        by_cases hex : isExpired age e.max_age_days
        · have hne : e.file_name ≠ nm := by
            intro heq
            have h0 := hprot e (List.mem_cons_self _ _) heq
            rw [h0, isExpired_zero] at hex
            exact absurd hex (by simp)
          have hstill : diskHas (diskRemove d e.file_name) nm = true := by
            rw [diskHas_diskRemove_ne _ _ _ (Ne.symm hne)]
            exact h
          have hr := ih (diskRemove d e.file_name) hprot' hstill
          cases hs : scan a k (diskRemove d e.file_name) rest with
          | hitFound v' dd =>
            rw [hs] at hr
            simpa [scan, hm, hdl, hex, hs, scanOutDisk] using hr
          | missEnd k0 c0 d0 =>
            rw [hs] at hr
            simpa [scan, hm, hdl, hex, hs, scanOutDisk] using hr
        · simpa [scan, hm, hdl, hex, scanOutDisk] using h

theorem scan_keeps_entry (a k : String) (e : CacheEntry)
    (caches : List CacheEntry) :
    ∀ (d : Disk α) (kept : List CacheEntry) (ch : Bool) (d' : Disk α),
      e ∈ caches → e.max_age_days = 0 →
      (∀ e' ∈ caches, e'.file_name = e.file_name → e'.max_age_days = 0) →
      diskHas d e.file_name = true →
      scan a k d caches = .missEnd kept ch d' → e ∈ kept := by
  induction caches with
  | nil =>
    intro d kept ch d' he
    simp at he
  | cons e1 rest ih =>
    intro d kept ch d' he h0 hprot h hs
    have hprot' : ∀ e' ∈ rest, e'.file_name = e.file_name →
        e'.max_age_days = 0 :=
      fun e' he' => hprot e' (List.mem_cons_of_mem _ he')
    cases hm : matchesSig e1 a k with
    | false =>
      simp only [scan, hm, Bool.false_eq_true, if_false] at hs
      cases hs2 : scan a k d rest with
      | hitFound v dd =>
        rw [hs2] at hs
        exact absurd hs (by simp)
      | missEnd k0 c0 d0 =>
        rw [hs2] at hs
        simp only [ScanOut.missEnd.injEq] at hs
        rcases List.mem_cons.mp he with heq | her
        · rw [← hs.1, heq]
          exact List.mem_cons_self _ _
        · have := ih d k0 c0 d0 her h0 hprot' h hs2
          rw [← hs.1]
          exact List.mem_cons_of_mem _ this
    | true =>
      simp only [scan, hm, if_true] at hs
      cases hdl : diskLookup d e1.file_name with
      | none =>
        rw [hdl] at hs
        have hee1 : e ≠ e1 := by
          intro heq
          rw [heq] at h
          simp [diskHas, hdl] at h
        have her : e ∈ rest := (List.mem_cons.mp he).resolve_left hee1
        cases hs2 : scan a k d rest with
        | hitFound v dd =>
          rw [hs2] at hs
          exact absurd hs (by simp)
        | missEnd k0 c0 d0 =>
          rw [hs2] at hs
          simp only [ScanOut.missEnd.injEq] at hs
          rw [← hs.1]
          exact ih d k0 c0 d0 her h0 hprot' h hs2
      | some p =>
        rw [hdl] at hs
        obtain ⟨v, age⟩ := p
        by_cases hex : isExpired age e1.max_age_days
        · have hne : e1.file_name ≠ e.file_name := by
            intro heq
            have h01 := hprot e1 (List.mem_cons_self _ _) heq
            rw [h01, isExpired_zero] at hex
            exact absurd hex (by simp)
          have hee1 : e ≠ e1 := by
            intro heq
            rw [← heq, h0, isExpired_zero] at hex
            exact absurd hex (by simp)
          have her : e ∈ rest := (List.mem_cons.mp he).resolve_left hee1
          have hstill : diskHas (diskRemove d e1.file_name) e.file_name = true := by
            rw [diskHas_diskRemove_ne _ _ _ (Ne.symm hne)]
            exact h
          simp only [hex, if_true] at hs
          cases hs2 : scan a k (diskRemove d e1.file_name) rest with
          | hitFound v' dd =>
            rw [hs2] at hs
            exact absurd hs (by simp)
          | missEnd k0 c0 d0 =>
            rw [hs2] at hs
            simp only [ScanOut.missEnd.injEq] at hs
            rw [← hs.1]
            exact ih (diskRemove d e1.file_name) k0 c0 d0 her h0 hprot' hstill hs2
        · simp only [hex, if_false] at hs
          exact absurd hs (by simp)

/-- C7: an entry with `max_age_days = 0` whose artifact file exists on disk
(and whose filename only unlimited-retention entries reference, so no aged
entry deletes it) is never removed by the eviction pass nor by a lookup, and
its artifact file is never deleted by either: age never evicts it. -/
theorem unlimited_retention_preserved (d : Disk α) (st : Store)
    (fn a k : String) (e : CacheEntry) (he : e ∈ entriesOf st fn)
    (h0 : e.max_age_days = 0) (hfile : diskHas d e.file_name = true)
    (hprot : ∀ p ∈ st.funcs, ∀ e' ∈ p.2, e'.file_name = e.file_name →
      e'.max_age_days = 0) :
    (e ∈ entriesOf (delete_old_disk_caches st d).1 fn ∧
      diskHas (delete_old_disk_caches st d).2 e.file_name = true) ∧
    (e ∈ entriesOf (cache_exists d st st fn a k).meta fn ∧
      e ∈ entriesOf (cache_exists d st st fn a k).persisted fn ∧
      diskHas (cache_exists d st st fn a k).disk e.file_name = true) := by
  cases hl : lookupA st.funcs fn with
  | none =>
    rw [entriesOf, hl] at he
    simp at he
  | some caches =>
    have hec : e ∈ caches := by
      rw [entriesOf, hl] at he
      simpa using he
    have hprotc : ∀ e' ∈ caches, e'.file_name = e.file_name →
        e'.max_age_days = 0 :=
      hprot (fn, caches) (lookupA_mem _ _ _ hl)
    constructor
    · -- eviction pass
      obtain ⟨l', hll, hel⟩ :=
        evictAll_keeps_entry e fn st.funcs d caches hl hec h0 hprot hfile
      have hdisk := evictAll_preserves_file e.file_name st.funcs d hprot hfile
      rcases hev : evictAll d st.funcs with ⟨funcs', changed, d'⟩
      rw [hev] at hll hdisk
      cases changed with
      | true =>
        constructor
        · simpa [delete_old_disk_caches, hev, entriesOf, hll] using hel
        · simpa [delete_old_disk_caches, hev] using hdisk
      | false =>
        constructor
        · simpa [delete_old_disk_caches, hev, entriesOf, hl] using hec
        · simpa [delete_old_disk_caches, hev] using hdisk
    · -- lookup
      have hdisk := scan_preserves_file a k e.file_name caches d hprotc hfile
      cases hs : scan a k d caches with
      | hitFound v dd =>
        rw [hs] at hdisk
        refine ⟨?_, ?_, ?_⟩
        · simpa [cache_exists, hl, hs, entriesOf, hl] using hec
        · simpa [cache_exists, hl, hs, entriesOf, hl] using hec
        · simpa [cache_exists, hl, hs, scanOutDisk] using hdisk
      | missEnd k0 c0 d0 =>
        rw [hs] at hdisk
        have hkeep := scan_keeps_entry a k e caches d k0 c0 d0 hec h0 hprotc
          hfile hs
        have hne : k0.isEmpty = false := by
          cases k0
          · simp at hkeep
          · simp
        cases c0 with
        | true =>
          refine ⟨?_, ?_, ?_⟩
          · simpa [cache_exists, hl, hs, hne, entriesOf,
              lookupA_updateA_self] using hkeep
          · simpa [cache_exists, hl, hs, hne, entriesOf,
              lookupA_updateA_self] using hkeep
          · simpa [cache_exists, hl, hs, hne, scanOutDisk] using hdisk
        | false =>
          refine ⟨?_, ?_, ?_⟩
          · simpa [cache_exists, hl, hs, entriesOf, hl] using hec
          · simpa [cache_exists, hl, hs, entriesOf, hl] using hec
          · simpa [cache_exists, hl, hs, scanOutDisk] using hdisk

/-- Witness instance of C7: an unlimited-retention entry whose artifact is
100 days old survives both the eviction pass and a matching lookup. -/
theorem unlimited_retention_preserved_witness :
    ((⟨"(1,)", "{}", "1.pkl", 0⟩ : CacheEntry) ∈
        entriesOf ⟨4, [("u", [⟨"(1,)", "{}", "1.pkl", 0⟩])]⟩ "u") ∧
    (CacheEntry.max_age_days ⟨"(1,)", "{}", "1.pkl", 0⟩ = 0) ∧
    (diskHas ([("1.pkl", 42, 100)] : Disk Nat)
        (CacheEntry.file_name ⟨"(1,)", "{}", "1.pkl", 0⟩) = true) ∧
    (∀ p ∈ (Store.mk 4 [("u", [⟨"(1,)", "{}", "1.pkl", 0⟩])]).funcs,
      ∀ e' ∈ p.2,
        e'.file_name = CacheEntry.file_name ⟨"(1,)", "{}", "1.pkl", 0⟩ →
        e'.max_age_days = 0) ∧
    (((⟨"(1,)", "{}", "1.pkl", 0⟩ : CacheEntry) ∈
        entriesOf (delete_old_disk_caches
          ⟨4, [("u", [⟨"(1,)", "{}", "1.pkl", 0⟩])]⟩
          ([("1.pkl", 42, 100)] : Disk Nat)).1 "u" ∧
      diskHas (delete_old_disk_caches
          ⟨4, [("u", [⟨"(1,)", "{}", "1.pkl", 0⟩])]⟩
          ([("1.pkl", 42, 100)] : Disk Nat)).2
        (CacheEntry.file_name ⟨"(1,)", "{}", "1.pkl", 0⟩) = true) ∧
     ((⟨"(1,)", "{}", "1.pkl", 0⟩ : CacheEntry) ∈
        entriesOf (cache_exists ([("1.pkl", 42, 100)] : Disk Nat)
          ⟨4, [("u", [⟨"(1,)", "{}", "1.pkl", 0⟩])]⟩
          ⟨4, [("u", [⟨"(1,)", "{}", "1.pkl", 0⟩])]⟩ "u" "(1,)" "{}").meta "u" ∧
      (⟨"(1,)", "{}", "1.pkl", 0⟩ : CacheEntry) ∈
        entriesOf (cache_exists ([("1.pkl", 42, 100)] : Disk Nat)
          ⟨4, [("u", [⟨"(1,)", "{}", "1.pkl", 0⟩])]⟩
          ⟨4, [("u", [⟨"(1,)", "{}", "1.pkl", 0⟩])]⟩ "u" "(1,)" "{}").persisted
          "u" ∧
      diskHas (cache_exists ([("1.pkl", 42, 100)] : Disk Nat)
          ⟨4, [("u", [⟨"(1,)", "{}", "1.pkl", 0⟩])]⟩
          ⟨4, [("u", [⟨"(1,)", "{}", "1.pkl", 0⟩])]⟩ "u" "(1,)" "{}").disk
        (CacheEntry.file_name ⟨"(1,)", "{}", "1.pkl", 0⟩) = true)) :=
  ⟨by decide, rfl, rfl, by decide,
    unlimited_retention_preserved [("1.pkl", 42, 100)]
      ⟨4, [("u", [⟨"(1,)", "{}", "1.pkl", 0⟩])]⟩ "u" "(1,)" "{}"
      ⟨"(1,)", "{}", "1.pkl", 0⟩ (by decide) rfl rfl (by decide)⟩

theorem diskLookup_diskWrite_self (d : Disk α) (n : String) (v : α) :
    diskLookup (diskWrite d n v) n = some (v, 0) := by
  simp [diskWrite, diskLookup, lookupA]

theorem diskLookup_ageDisk (δ : Int) (d : Disk α) (n : String) :
    diskLookup (ageDisk δ d) n =
      (diskLookup d n).map (fun q => (q.1, q.2 + δ)) := by
  induction d with
  | nil => simp [ageDisk, diskLookup, lookupA]
  | cons p rest ih =>
    obtain ⟨m, q⟩ := p
    by_cases h : m = n
    · subst h
      simp [ageDisk, diskLookup, lookupA]
    · simpa [ageDisk, diskLookup, lookupA, h] using ih

/-- Entries that do not match the signature are passed over by the scan:
they are carried into `new_caches_for_function` and affect nothing else. -/
theorem scan_nonmatching_prefix (a k : String) (l : List CacheEntry)
    (d : Disk α) :
    ∀ pre : List CacheEntry, (∀ e ∈ pre, matchesSig e a k = false) →
      scan a k d (pre ++ l) =
        (match scan a k d l with
         | .hitFound v d' => ScanOut.hitFound v d'
         | .missEnd kept c d' => ScanOut.missEnd (pre ++ kept) c d') := by
  intro pre
  induction pre with
  | nil =>
    intro _
    cases hs : scan a k d l <;> simp [hs]
  | cons e pre ih =>
    intro hpre
    have hm : matchesSig e a k = false := hpre e (List.mem_cons_self _ _)
    have ih' := ih fun e' he' => hpre e' (List.mem_cons_of_mem _ he')
    rw [List.cons_append, scan]
    rw [if_neg (by simp [hm]), ih']
    cases hs : scan a k d l <;> simp [hs]

/-- One wrapper call on a Hit: count it, return the cached value, run
nothing. -/
theorem wrapperCall_hit (comp : CompResult α) (nDays : Int) (fn a k : String)
    (s : CallState α) (v : α)
    (hhit : (cache_exists s.disk s.persisted s.persisted fn a k).found = some v) :
    wrapperCall comp nDays fn a k s =
      ⟨.ret v,
       ⟨(cache_exists s.disk s.persisted s.persisted fn a k).persisted,
        (cache_exists s.disk s.persisted s.persisted fn a k).disk,
        s.hits + 1, s.misses, s.nocache⟩,
       false⟩ := by
  simp only [wrapperCall, hhit]

/-- One wrapper call on a Miss with a successfully returning computation on a
cacheable function name: the value is computed, pickled under the next minted
filename, appended to the (already pruned in memory) entry list, and the
store, counter bumped, is written out. -/
theorem wrapperCall_ok_miss (s : CallState α) (v : α) (nDays : Int)
    (fn a k : String) (hfn : fn ≠ TOTAL_NUMCACHE_KEY)
    (hmiss : (cache_exists s.disk s.persisted s.persisted fn a k).found = none) :
    wrapperCall (.ok v) nDays fn a k s =
      ⟨.ret v,
       ⟨⟨(cache_exists s.disk s.persisted s.persisted fn a k).meta.counter + 1,
         updateA (cache_exists s.disk s.persisted s.persisted fn a k).meta.funcs
           fn
           (entriesOf (cache_exists s.disk s.persisted s.persisted fn a k).meta
              fn ++
            [⟨a, k,
              mintName
                ((cache_exists s.disk s.persisted s.persisted fn a k).meta.counter +
                  1),
              nDays⟩])⟩,
        diskWrite (cache_exists s.disk s.persisted s.persisted fn a k).disk
          (mintName
            ((cache_exists s.disk s.persisted s.persisted fn a k).meta.counter +
              1))
          v,
        s.hits, s.misses + 1, s.nocache⟩,
       true⟩ := by
  simp only [wrapperCall, hmiss, cache_function_value, hfn, if_false]
  rfl

/-- C1: starting from any state in which the lookup misses, a first wrapper
call on a cacheable function runs the computation once and caches the result;
a second call with the same signature after `δ` further days — any delay that
does not flunk the TTL test — returns the same value from the cache without
invoking its computation: the computation runs exactly once across the two
calls and both return the same value. -/
theorem idempotent_hit (s0 : CallState α) (v : α) (nDays : Int)
    (fn a k : String) (δ : Int) (comp2 : CompResult α) (r1 : CallResult α)
    (hfn : fn ≠ TOTAL_NUMCACHE_KEY)
    (hmiss : (cache_exists s0.disk s0.persisted s0.persisted fn a k).found =
      none)
    (hfresh : isExpired δ nDays = false)
    (hr1 : wrapperCall (.ok v) nDays fn a k s0 = r1) :
    r1.outcome = Outcome.ret v ∧ r1.invoked = true ∧
    (wrapperCall comp2 nDays fn a k
        ⟨r1.state.persisted, ageDisk δ r1.state.disk, r1.state.hits,
         r1.state.misses, r1.state.nocache⟩).outcome = Outcome.ret v ∧
    (wrapperCall comp2 nDays fn a k
        ⟨r1.state.persisted, ageDisk δ r1.state.disk, r1.state.hits,
         r1.state.misses, r1.state.nocache⟩).invoked = false := by
  have hmark := cache_exists_miss_entries s0.disk s0.persisted fn a k hmiss
  subst hr1
  rw [wrapperCall_ok_miss s0 v nDays fn a k hfn hmiss]
  dsimp only
  generalize hM : (cache_exists s0.disk s0.persisted s0.persisted fn a k).meta =
    M at hmark ⊢
  generalize hD : (cache_exists s0.disk s0.persisted s0.persisted fn a k).disk =
    DK
  rw [hmark]
  have hpre : ∀ e ∈ (entriesOf s0.persisted fn).filter
      (fun e => !matchesSig e a k), matchesSig e a k = false := by
    intro e he
    simpa using (List.mem_filter.mp he).2
  have hhit2 : (cache_exists
      (ageDisk δ (diskWrite DK (mintName (M.counter + 1)) v))
      ⟨M.counter + 1, updateA M.funcs fn
        ((entriesOf s0.persisted fn).filter (fun e => !matchesSig e a k) ++
         [⟨a, k, mintName (M.counter + 1), nDays⟩])⟩
      ⟨M.counter + 1, updateA M.funcs fn
        ((entriesOf s0.persisted fn).filter (fun e => !matchesSig e a k) ++
         [⟨a, k, mintName (M.counter + 1), nDays⟩])⟩
      fn a k).found = some v := by
    have hlook := lookupA_updateA_self M.funcs fn
      ((entriesOf s0.persisted fn).filter (fun e => !matchesSig e a k) ++
       [⟨a, k, mintName (M.counter + 1), nDays⟩])
    have hdl2 : diskLookup
        (ageDisk δ (diskWrite DK (mintName (M.counter + 1)) v))
        (mintName (M.counter + 1)) = some (v, 0 + δ) := by
      rw [diskLookup_ageDisk, diskLookup_diskWrite_self]
      rfl
    have hsingle : scan a k
        (ageDisk δ (diskWrite DK (mintName (M.counter + 1)) v))
        [⟨a, k, mintName (M.counter + 1), nDays⟩] =
        .hitFound v (ageDisk δ (diskWrite DK (mintName (M.counter + 1)) v)) := by
      simp [scan, matchesSig, hdl2, zero_add, hfresh]
    have hscan := scan_nonmatching_prefix a k
      [⟨a, k, mintName (M.counter + 1), nDays⟩]
      (ageDisk δ (diskWrite DK (mintName (M.counter + 1)) v))
      ((entriesOf s0.persisted fn).filter (fun e => !matchesSig e a k)) hpre
    rw [hsingle] at hscan
    simp only [cache_exists, hlook, hscan]
  have h2 := wrapperCall_hit comp2 nDays fn a k
    ⟨⟨M.counter + 1, updateA M.funcs fn
        ((entriesOf s0.persisted fn).filter (fun e => !matchesSig e a k) ++
         [⟨a, k, mintName (M.counter + 1), nDays⟩])⟩,
      ageDisk δ (diskWrite DK (mintName (M.counter + 1)) v),
      s0.hits, s0.misses + 1, s0.nocache⟩ v hhit2
  exact ⟨rfl, rfl, by rw [h2], by rw [h2]⟩

/-- Witness instance of C1: `slow_square(4) = 16` cached on the first call
from the empty state and served from the cache 3 days later; the second
call's computation (which would return 99) is not run. -/
theorem idempotent_hit_witness :
    ("slow_square" ≠ TOTAL_NUMCACHE_KEY) ∧
    ((cache_exists ([] : Disk Nat) emptyStore emptyStore "slow_square" "(4,)"
        "{}").found = none) ∧
    (isExpired 3 7 = false) ∧
    (wrapperCall (.ok 16) 7 "slow_square" "(4,)" "{}"
        (⟨emptyStore, [], 0, 0, 0⟩ : CallState Nat) =
      ⟨.ret 16, ⟨⟨1, [("slow_square", [⟨"(4,)", "{}", "1.pkl", 7⟩])]⟩,
        [("1.pkl", 16, 0)], 0, 1, 0⟩, true⟩) ∧
    ((⟨.ret 16, ⟨⟨1, [("slow_square", [⟨"(4,)", "{}", "1.pkl", 7⟩])]⟩,
        [("1.pkl", 16, 0)], 0, 1, 0⟩, true⟩ : CallResult Nat).outcome =
        Outcome.ret 16 ∧
      (⟨.ret 16, ⟨⟨1, [("slow_square", [⟨"(4,)", "{}", "1.pkl", 7⟩])]⟩,
        [("1.pkl", 16, 0)], 0, 1, 0⟩, true⟩ : CallResult Nat).invoked = true ∧
      (wrapperCall (.ok 99) 7 "slow_square" "(4,)" "{}"
          ⟨(⟨.ret 16, ⟨⟨1, [("slow_square", [⟨"(4,)", "{}", "1.pkl", 7⟩])]⟩,
              [("1.pkl", 16, 0)], 0, 1, 0⟩, true⟩ : CallResult Nat).state.persisted,
           ageDisk 3 (⟨.ret 16,
              ⟨⟨1, [("slow_square", [⟨"(4,)", "{}", "1.pkl", 7⟩])]⟩,
               [("1.pkl", 16, 0)], 0, 1, 0⟩, true⟩ : CallResult Nat).state.disk,
           (⟨.ret 16, ⟨⟨1, [("slow_square", [⟨"(4,)", "{}", "1.pkl", 7⟩])]⟩,
              [("1.pkl", 16, 0)], 0, 1, 0⟩, true⟩ : CallResult Nat).state.hits,
           (⟨.ret 16, ⟨⟨1, [("slow_square", [⟨"(4,)", "{}", "1.pkl", 7⟩])]⟩,
              [("1.pkl", 16, 0)], 0, 1, 0⟩, true⟩ : CallResult Nat).state.misses,
           (⟨.ret 16, ⟨⟨1, [("slow_square", [⟨"(4,)", "{}", "1.pkl", 7⟩])]⟩,
              [("1.pkl", 16, 0)], 0, 1, 0⟩, true⟩ : CallResult Nat).state.nocache⟩).outcome =
        Outcome.ret 16 ∧
      (wrapperCall (.ok 99) 7 "slow_square" "(4,)" "{}"
          ⟨(⟨.ret 16, ⟨⟨1, [("slow_square", [⟨"(4,)", "{}", "1.pkl", 7⟩])]⟩,
              [("1.pkl", 16, 0)], 0, 1, 0⟩, true⟩ : CallResult Nat).state.persisted,
           ageDisk 3 (⟨.ret 16,
              ⟨⟨1, [("slow_square", [⟨"(4,)", "{}", "1.pkl", 7⟩])]⟩,
               [("1.pkl", 16, 0)], 0, 1, 0⟩, true⟩ : CallResult Nat).state.disk,
           (⟨.ret 16, ⟨⟨1, [("slow_square", [⟨"(4,)", "{}", "1.pkl", 7⟩])]⟩,
              [("1.pkl", 16, 0)], 0, 1, 0⟩, true⟩ : CallResult Nat).state.hits,
           (⟨.ret 16, ⟨⟨1, [("slow_square", [⟨"(4,)", "{}", "1.pkl", 7⟩])]⟩,
              [("1.pkl", 16, 0)], 0, 1, 0⟩, true⟩ : CallResult Nat).state.misses,
           (⟨.ret 16, ⟨⟨1, [("slow_square", [⟨"(4,)", "{}", "1.pkl", 7⟩])]⟩,
              [("1.pkl", 16, 0)], 0, 1, 0⟩, true⟩ : CallResult Nat).state.nocache⟩).invoked =
        false) :=
  ⟨by decide, rfl, rfl, rfl,
    idempotent_hit ⟨emptyStore, [], 0, 0, 0⟩ 16 7 "slow_square" "(4,)" "{}" 3
      (.ok 99)
      ⟨.ret 16, ⟨⟨1, [("slow_square", [⟨"(4,)", "{}", "1.pkl", 7⟩])]⟩,
        [("1.pkl", 16, 0)], 0, 1, 0⟩, true⟩
      (by decide) rfl rfl rfl⟩

/-- C6: calling `cache_function_value` with the function name equal to the
reserved counter key raises `ConfigurationError`; because the check precedes
`pickle_big_data` and every store mutation, no artifact is written and no
entry is added (the error return carries no new state). -/
theorem insert_reserved_key_rejected (α : Type) (v : α) (nDays : Int)
    (d : Disk α) (m : Store) (a k : String) :
    cache_function_value v nDays d m TOTAL_NUMCACHE_KEY a k =
      .error .configurationError := by
  simp [cache_function_value]

/-- C9: `load_cache_metadata_json` returns the persisted record when the file
parses; when the file is absent it persists and returns the empty store with
counter 0; when the file is present but unparseable it fails with the storage
error instead of returning a store. -/
theorem load_metadata_spec (s : Store) :
    load_cache_metadata_json (.parseable s) = .ok (s, .parseable s) ∧
    load_cache_metadata_json .absent = .ok (emptyStore, .parseable emptyStore) ∧
    emptyStore.counter = 0 ∧
    load_cache_metadata_json .corrupt = .error .storageError :=
  ⟨rfl, rfl, rfl, rfl⟩

/-- C3 (bug evidence): on a store whose only function has all entries expired,
`delete_old_disk_caches` removes the artifact file but the rewritten store is
the unchanged input: the function's key is not dropped, and the store now
holds a stale entry list whose artifacts were all just deleted. -/
theorem evict_keeps_stale_list_bug :
    delete_old_disk_caches c3Store c3Disk = (c3Store, ([] : Disk Nat)) := by
  decide

/-- C2 (counterexample): a lookup in which the first matching entry is dropped
(its artifact is missing) but a later matching entry produces a Hit returns
without rewriting the store: the persisted metadata still contains the orphan
entry, refuting "the store is rewritten ... regardless of whether the final
result is a Hit or a Miss". -/
theorem hit_skips_prune_rewrite_cex :
    diskHas c2Disk c2Entry1.file_name = false ∧
    matchesSig c2Entry1 "(1,)" "{}" = true ∧
    (cache_exists c2Disk c2Store c2Store "f" "(1,)" "{}").found = some 42 ∧
    (cache_exists c2Disk c2Store c2Store "f" "(1,)" "{}").persisted = c2Store ∧
    c2Entry1 ∈ entriesOf c2Store "f" := by
  refine ⟨rfl, rfl, rfl, rfl, ?_⟩
  decide

/-- C8 (counterexample): inserting into the empty store (counter 0) yields a
store with counter 1 whose single entry references `1.pkl`, derived from
counter value 1 — not strictly less than the current counter, refuting the
claimed strict inequality. -/
theorem insert_filename_equals_counter_cex :
    cache_function_value (α := Nat) 42 7 [] emptyStore "f" "(1,)" "{}" =
      .ok (c8Disk, c8Store) ∧
    ¬ filenamesBelowCounter c8Store := by
  refine ⟨rfl, fun h => ?_⟩
  obtain ⟨c, hc, hname⟩ :=
    h "f" ⟨"(1,)", "{}", "1.pkl", 7⟩ (by decide)
  rw [show c8Store.counter = 1 from rfl, Nat.lt_one_iff] at hc
  subst hc
  exact absurd hname (by decide)

end CacheToDisk
